import Mathlib

/-!
Shallow embedding of the PlotWeave webui streaming-session and
workflow-gating core, together with proofs about it.

The definitions translate, as directly as Lean allows, the TypeScript
source of the repository:

* `isLocked`, `chapterWritingReadOnly`, `generateDisabled` embed the
  chapter-lock / generate-button logic of `ChapterWritingPage.tsx`;
* `Message`, `chatSubmit`, `insertLog`, `applyToken`,
  `applyErrorOverwrite`, `worldSetupApply`, `chapteringApply` embed the
  chat transcript state and the `handleSubmit` event loop of
  `WorldSetupPage.tsx` (and its `ChapteringPage` sibling, which differs
  only in the `error` case of the switch);
* `groupGo` / `groupedMessages` embed the `groupedMessages` `useMemo`
  grouping computation, identical in both chat pages;
* `splitBlank`, `yieldFrames`, `feed`, `runDecoder`, `decodeAll` embed
  the `streamAsyncIterator` SSE decoder of `lib/utils.ts` (buffer
  accumulation, split on the blank-line separator, retention of the
  trailing partial part, the `data: ` field filter and `substring(6)`);
* `parseEvent` models the browser built-in `JSON.parse`, restricted to
  the flat event payload shape the protocol uses.

Strings flowing through the byte-stream decoder are modelled as
`List Char`; chunk boundaries of the underlying byte stream correspond
to list-of-chunk decompositions of the full character sequence (the
`TextDecoder` with `stream: true` makes byte-level splits of ASCII data
equivalent to character-level splits).
-/

namespace PlotWeave

/-! ## Project phases (components/ProjectCard.tsx) -/

/-- The phase enum, with the source's (misspelled) constant names:
OUTLINE=0, WORLD_SETUP=1, CHAPERING=2, CHAPER_WRITING=3. -/
inductive ProjectPhase where
  | OUTLINE
  | WORLD_SETUP
  | CHAPERING
  | CHAPER_WRITING
deriving DecidableEq, Repr

/-! ## Workflow gate (pages/ChapterWritingPage.tsx) -/

/-- Embeds `const isLocked = currentWritableIndex !== null && index > currentWritableIndex`
(used both in `getStatusIcon` and in the chapter-navigation button list). -/
def isLocked (currentWritableIndex : Option Nat) (index : Nat) : Bool :=
  match currentWritableIndex with
  | some cur => decide (index > cur)
  | none => false

/-- Embeds `const isReadOnly = project?.phase !== ProjectPhase.CHAPER_WRITING`. -/
def chapterWritingReadOnly (phase : Option ProjectPhase) : Bool :=
  decide (phase ≠ some ProjectPhase.CHAPER_WRITING)

/-- The `disabled` expression of the generate button:
`isGenerating || isSaving || isReadOnly || selectedChapterIndex !== currentWritableIndex`. -/
def generateDisabled (isGenerating isSaving : Bool) (phase : Option ProjectPhase)
    (selectedChapterIndex currentWritableIndex : Option Nat) : Bool :=
  isGenerating || isSaving || chapterWritingReadOnly phase ||
    decide (selectedChapterIndex ≠ currentWritableIndex)

/-! ## Transcript data model (lib/types.ts) -/

inductive Role where
  | user
  | assistant
deriving DecidableEq, Repr

/-- Embeds `interface Message { id; role; content; type? }`; the optional
`type` field carries one of the strings `"thinking"`, `"tool_result"`,
`"final"` exactly as in the source. -/
structure Message where
  id : String
  role : Role
  content : String
  type : Option String
deriving DecidableEq, Repr

/-! ## Submission guard and placeholder creation (handleSubmit prologue) -/

/-- Result of one `handleSubmit` invocation: the new message list, the
new input-box value, the new `isLoading` flag, and the network request
issued, if any (the request body carries the submitted message and the
history captured before submission). -/
structure SubmitResult where
  messages : List Message
  input : String
  isLoading : Bool
  request : Option (String × List Message)
deriving DecidableEq, Repr

/-- The prologue of `handleSubmit`, identical in `WorldSetupPage` and
`ChapteringPage`:
`if (!input.trim() || isLoading || !projectId) return;` then append the
user message and the empty assistant placeholder, clear the input, set
`isLoading`, and issue the streaming request.  The fresh message
identifiers (`user-...`/`assistant-...` timestamps in the source) are
passed in as `uid` and `pid`. -/
def chatSubmit (messages : List Message) (input : String) (isLoading : Bool)
    (hasProjectId : Bool) (uid pid : String) : SubmitResult :=
  if input.trim = "" || isLoading || !hasProjectId then
    ⟨messages, input, isLoading, none⟩
  else
    let userMessage : Message := ⟨uid, Role.user, input, none⟩
    let assistantPlaceholder : Message := ⟨pid, Role.assistant, "", some "final"⟩
    ⟨messages ++ [userMessage, assistantPlaceholder], "", true, some (input, messages)⟩

/-! ## Event application (the switch inside handleSubmit) -/

/-- The parsed SSE payload: `JSON.parse(chunk)` yields an object with a
`type` discriminator string and a `data` string. -/
structure ParsedEvent where
  type : String
  data : String
deriving DecidableEq, Repr

/-- Case `"thinking"` / `"tool_result"`: insert a new log message just
before the last element (the placeholder):
`const last = prev[prev.length-1]; const rest = prev.slice(0,-1);
return [...rest, newLog, last]`.  (On an empty list the JS code would
produce an `undefined` tail entry; that state is unreachable in the
page, and we return just the log there.) -/
def insertLog (newLogId ty d : String) (msgs : List Message) : List Message :=
  match msgs.getLast? with
  | some last => msgs.dropLast ++ [⟨newLogId, Role.assistant, d, some ty⟩, last]
  | none => [⟨newLogId, Role.assistant, d, some ty⟩]

/-- Case `"token"`: `prev.map(msg => msg.id === assistantMessageId ?
{...msg, content: msg.content + parsedData.data} : msg)`. -/
def applyToken (targetId d : String) (msgs : List Message) : List Message :=
  msgs.map fun m => if m.id = targetId then { m with content := m.content ++ d } else m

/-- Case `"error"` of `WorldSetupPage`: `prev.map(msg => msg.id === assistantMessageId ?
{...msg, content: ` the template literal `**错误:** ${parsedData.data}` `} : msg)`:
the placeholder's content is overwritten with the formatted marker. -/
def applyErrorOverwrite (targetId d : String) (msgs : List Message) : List Message :=
  msgs.map fun m => if m.id = targetId then { m with content := "**错误:** " ++ d } else m

/-- The event switch of `WorldSetupPage.handleSubmit`.  Unrecognized
`type` strings fall through the switch and leave the list unchanged. -/
def worldSetupApply (p : ParsedEvent) (targetId newLogId : String)
    (msgs : List Message) : List Message :=
  if p.type = "thinking" || p.type = "tool_result" then
    insertLog newLogId p.type p.data msgs
  else if p.type = "token" then
    applyToken targetId p.data msgs
  else if p.type = "end" then
    msgs
  else if p.type = "error" then
    applyErrorOverwrite targetId p.data msgs
  else
    msgs

/-- The event switch of `ChapteringPage.handleSubmit`.  It is the same
switch except that `case "end": case "error": break;` share one no-op
body — the error event does not touch the transcript there. -/
def chapteringApply (p : ParsedEvent) (targetId newLogId : String)
    (msgs : List Message) : List Message :=
  if p.type = "thinking" || p.type = "tool_result" then
    insertLog newLogId p.type p.data msgs
  else if p.type = "token" then
    applyToken targetId p.data msgs
  else if p.type = "end" || p.type = "error" then
    msgs
  else
    msgs

/-! ## Transcript grouping (the groupedMessages useMemo, both chat pages) -/

/-- Embeds `const isToolMessage = message.type === "thinking" || message.type === "tool_result"`. -/
def isToolMessage (m : Message) : Bool :=
  m.type = some "thinking" || m.type = some "tool_result"

/-- Embeds `type GroupedMessage = Message | { type: "tool_group"; messages; id }`. -/
inductive GroupedMessage where
  | single (m : Message)
  | toolGroup (messages : List Message) (id : String)
deriving DecidableEq, Repr

/-- The pushed group object: `{ type: "tool_group", messages: currentToolGroup,
id: ` the template `group-` followed by `currentToolGroup[0].id }`. -/
def mkToolGroup (cur : List Message) : GroupedMessage :=
  GroupedMessage.toolGroup cur ("group-" ++ (match cur.head? with
    | some m => m.id
    | none => ""))

/-- Embeds `if (currentToolGroup.length > 0) groups.push({...})`. -/
def emitCur (cur : List Message) : List GroupedMessage :=
  if cur.isEmpty then [] else [mkToolGroup cur]

/-- The loop body of `groupedMessages`: walk the message list carrying
the current run of tool messages; a non-tool message flushes the run
(if non-empty) and is pushed standalone; the trailing run is flushed at
the end. -/
def groupGo (cur : List Message) : List Message → List GroupedMessage
  | [] => emitCur cur
  | m :: rest =>
    if isToolMessage m then groupGo (cur ++ [m]) rest
    else emitCur cur ++ GroupedMessage.single m :: groupGo [] rest

/-- Embeds `groupedMessages`, recomputed from the full message list. -/
def groupedMessages (msgs : List Message) : List GroupedMessage :=
  groupGo [] msgs

/-- The messages presented by one output item: a standalone message by
itself, a tool group its member list. -/
def GroupedMessage.contents : GroupedMessage → List Message
  | .single m => [m]
  | .toolGroup l _ => l

def isGroup : GroupedMessage → Bool
  | .toolGroup _ _ => true
  | .single _ => false

/-- No two adjacent output items are both tool groups (runs are never
split). -/
def noTwoGroups : List GroupedMessage → Bool
  | g1 :: g2 :: rest => !(isGroup g1 && isGroup g2) && noTwoGroups (g2 :: rest)
  | _ => true

/-! ## SSE decoder (streamAsyncIterator, lib/utils.ts) -/

/-- Helper for `splitBlank`: prepend a character to the first part of a
split result (the list is in fact never empty). -/
def consHead (c : Char) : List (List Char) → List (List Char)
  | [] => [[c]]
  | r :: rs => (c :: r) :: rs

/-- Embeds `buffer.split("\n\n")` on character lists: greedy leftmost split on
the two-newline separator, always returning at least one (possibly
empty) part, exactly as JavaScript `String.prototype.split` with a
plain string separator. -/
def splitBlank : List Char → List (List Char)
  | [] => [[]]
  | [c] => [[c]]
  | c1 :: c2 :: rest =>
    if c1 = '\n' ∧ c2 = '\n' then [] :: splitBlank rest
    else consHead c1 (splitBlank (c2 :: rest))

/-- Embeds `parts.slice(0, -1)` — all parts before the one retained as the new
buffer (`parts.pop()`). -/
def initParts : List (List Char) → List (List Char)
  | [] => []
  | [_] => []
  | p :: ps => p :: initParts ps

/-- Embeds `parts.pop() || ""` — the retained trailing part. -/
def lastPart : List Char → List (List Char) → List Char
  | d, [] => d
  | _, [p] => p
  | d, _ :: p :: ps => lastPart d (p :: ps)

/-- The 6-character field marker of `part.startsWith("data: ")`. -/
def dataField : List Char := "data: ".toList

/-- Embeds `for (const part of parts) if (part.startsWith("data: ")) yield part.substring(6)`. -/
def yieldFrames (frames : List (List Char)) : List (List Char) :=
  frames.filterMap fun p => if dataField.isPrefixOf p then some (p.drop 6) else none

/-- One iteration of the read loop: append the chunk to the buffer,
split on the blank-line separator, keep the trailing part as the new
buffer, and yield the data segments of the complete parts. -/
def feed (buffer chunk : List Char) : List (List Char) × List Char :=
  let parts := splitBlank (buffer ++ chunk)
  (yieldFrames (initParts parts), lastPart [] parts)

/-- Run the decoder over a list of chunks starting from a buffer,
collecting every yielded payload in order.  When the underlying stream
reports `done`, the loop breaks and whatever is left in the buffer is
dropped. -/
def runDecoder (buffer : List Char) : List (List Char) → List (List Char)
  | [] => []
  | c :: cs => (feed buffer c).1 ++ runDecoder (feed buffer c).2 cs

/-- Embeds `streamAsyncIterator` on a whole stream presented as its list of
read chunks. -/
def decodeAll (chunks : List (List Char)) : List (List Char) :=
  runDecoder [] chunks

/-- Whether a character list contains the blank-line separator. -/
def hasBlankSep : List Char → Bool
  | c1 :: c2 :: rest => (c1 = '\n' && c2 = '\n') || hasBlankSep (c2 :: rest)
  | _ => false

/-! ## Event payload parsing

The pages call the browser built-in `JSON.parse` on each yielded
payload and read its `type` and `data` fields.  `parseEvent` models
that call restricted to the exact payload shape of the protocol
(`type` then `data`, both strings, no surrounding whitespace), which is
all the concrete claims exercise. -/

/-- Parse the body of a JSON string literal (after the opening quote),
returning the decoded characters and the input after the closing
quote. -/
def parseJsonStrAux : List Char → List Char → Option (List Char × List Char)
  | acc, '"' :: rest => some (acc.reverse, rest)
  | acc, '\\' :: c :: rest =>
    if c = '"' then parseJsonStrAux ('"' :: acc) rest
    else if c = '\\' then parseJsonStrAux ('\\' :: acc) rest
    else if c = '/' then parseJsonStrAux ('/' :: acc) rest
    else if c = 'n' then parseJsonStrAux ('\n' :: acc) rest
    else if c = 't' then parseJsonStrAux ('\t' :: acc) rest
    else if c = 'r' then parseJsonStrAux ('\r' :: acc) rest
    else none
  | acc, c :: rest =>
    if c = '\\' || c = '"' then none else parseJsonStrAux (c :: acc) rest
  | _, [] => none

/-- Parse a JSON string literal including its opening quote. -/
def parseJsonStr : List Char → Option (List Char × List Char)
  | '"' :: rest => parseJsonStrAux [] rest
  | _ => none

/-- Consume an expected literal prefix. -/
def expectLit (lit s : List Char) : Option (List Char) :=
  if lit.isPrefixOf s then some (s.drop lit.length) else none

/-- Models `JSON.parse` restricted to `\x7b"type":<string>,"data":<string>\x7d`. -/
def parseEvent (s : List Char) : Option ParsedEvent := do
  let s1 ← expectLit "\x7b\"type\":".toList s
  let (ty, s2) ← parseJsonStr s1
  let s3 ← expectLit ",\"data\":".toList s2
  let (da, s4) ← parseJsonStr s3
  let s5 ← expectLit "\x7d".toList s4
  if s5 = [] then some ⟨String.mk ty, String.mk da⟩ else none


/-! ## Concrete inputs used by the closed theorems -/

/-- The spec's decoder test vector: two complete SSE frames. -/
def sseInput : List Char :=
  "data: \x7b\"type\":\"token\",\"data\":\"Hi\"\x7d\n\ndata: \x7b\"type\":\"end\",\"data\":\"\"\x7d\n\n".toList

/-- The first payload the decoder must yield on `sseInput`. -/
def ssePayload1 : List Char := "\x7b\"type\":\"token\",\"data\":\"Hi\"\x7d".toList

/-- The second payload the decoder must yield on `sseInput`. -/
def ssePayload2 : List Char := "\x7b\"type\":\"end\",\"data\":\"\"\x7d".toList

/-- A two-message chat transcript: one user message followed by the
live assistant placeholder, as `handleSubmit` creates them. -/
def demoMsgs : List Message :=
  [⟨"user-1", Role.user, "hi", none⟩, ⟨"assistant-1", Role.assistant, "", some "final"⟩]

/-- A transcript with a run of two diagnostic messages between a user
message and the assistant final message. -/
def demoToolRun : List Message :=
  [⟨"user-1", Role.user, "hi", none⟩,
   ⟨"log-1", Role.assistant, "t", some "thinking"⟩,
   ⟨"log-2", Role.assistant, "r", some "tool_result"⟩,
   ⟨"assistant-1", Role.assistant, "ok", some "final"⟩]

/-! ## Helper lemmas -/




theorem splitBlank_sep (rest : List Char) :
    splitBlank ('\n' :: '\n' :: rest) = [] :: splitBlank rest := by
  simp [splitBlank]

theorem splitBlank_cons₂ {c1 c2 : Char} (h : ¬(c1 = '\n' ∧ c2 = '\n')) (rest : List Char) :
    splitBlank (c1 :: c2 :: rest) = consHead c1 (splitBlank (c2 :: rest)) := by
  simp [splitBlank, h]

theorem splitBlank_ne_nil (s : List Char) : splitBlank s ≠ [] := by
  induction s using splitBlank.induct with
  | case1 => simp [splitBlank]
  | case2 c => simp [splitBlank]
  | case3 c1 c2 rest h ih =>
    obtain ⟨h1, h2⟩ := h; subst h1; subst h2
    rw [splitBlank_sep]; simp
  | case4 c1 c2 rest h ih =>
    rw [splitBlank_cons₂ h]
    cases hq : splitBlank (c2 :: rest) with
    | nil => exact absurd hq ih
    | cons q qs => simp [consHead]

theorem splitBlank_singleton : ∀ {a r : List Char}, splitBlank a = [r] → r = a := by
  intro a
  induction a using splitBlank.induct with
  | case1 => intro r h; injection h with h1 h2; exact h1.symm
  | case2 c => intro r h; injection h with h1 h2; exact h1.symm
  | case3 c1 c2 rest h ih =>
    obtain ⟨h1, h2⟩ := h; subst h1; subst h2
    intro r h
    rw [splitBlank_sep] at h
    injection h with h1 h2
    exact absurd h2 (splitBlank_ne_nil rest)
  | case4 c1 c2 rest h ih =>
    intro r hr
    rw [splitBlank_cons₂ h] at hr
    cases hq : splitBlank (c2 :: rest) with
    | nil => exact absurd hq (splitBlank_ne_nil _)
    | cons q qs =>
      rw [hq, consHead] at hr
      cases qs with
      | nil =>
        injection hr with h1 h2
        have hq' : q = c2 :: rest := ih hq
        rw [← h1, hq']
      | cons q2 qs2 => simp at hr



theorem consHead_cons (c : Char) (r : List Char) (rs : List (List Char)) :
    consHead c (r :: rs) = (c :: r) :: rs := rfl

theorem splitBlank_append (a b : List Char) :
    splitBlank (a ++ b) =
      initParts (splitBlank a) ++ splitBlank (lastPart [] (splitBlank a) ++ b) := by
  induction a using splitBlank.induct with
  | case1 => simp [splitBlank, initParts, lastPart]
  | case2 c => simp [splitBlank, initParts, lastPart]
  | case3 c1 c2 rest h ih =>
    obtain ⟨h1, h2⟩ := h; subst h1; subst h2
    have e1 : ('\n' :: '\n' :: rest) ++ b = '\n' :: '\n' :: (rest ++ b) := rfl
    rw [e1, splitBlank_sep, splitBlank_sep, ih]
    cases hq : splitBlank rest with
    | nil => exact absurd hq (splitBlank_ne_nil rest)
    | cons q qs => simp [initParts, lastPart]
  | case4 c1 c2 rest h ih =>
    have e1 : (c1 :: c2 :: rest) ++ b = c1 :: c2 :: (rest ++ b) := rfl
    rw [e1, splitBlank_cons₂ h, splitBlank_cons₂ h]
    have e2 : c2 :: (rest ++ b) = (c2 :: rest) ++ b := rfl
    rw [e2, ih]
    cases hq : splitBlank (c2 :: rest) with
    | nil => exact absurd hq (splitBlank_ne_nil _)
    | cons q qs =>
      cases qs with
      | nil =>
        have hq' : q = c2 :: rest := splitBlank_singleton hq
        subst hq'
        simp only [consHead_cons, initParts, lastPart, List.nil_append]
        rw [e1, splitBlank_cons₂ h, e2]
      | cons q2 qs2 =>
        simp only [consHead_cons, initParts, lastPart, List.cons_append]



theorem initParts_cons_of_ne_nil (p : List Char) {ps : List (List Char)} (h : ps ≠ []) :
    initParts (p :: ps) = p :: initParts ps := by
  cases ps with
  | nil => exact absurd rfl h
  | cons q qs => rfl

theorem lastPart_cons_of_ne_nil (d p : List Char) {ps : List (List Char)} (h : ps ≠ []) :
    lastPart d (p :: ps) = lastPart d ps := by
  cases ps with
  | nil => exact absurd rfl h
  | cons q qs => rfl

theorem initParts_append (xs : List (List Char)) {ys : List (List Char)} (h : ys ≠ []) :
    initParts (xs ++ ys) = xs ++ initParts ys := by
  induction xs with
  | nil => rfl
  | cons x xs ih =>
    rw [List.cons_append, initParts_cons_of_ne_nil x (by simp [h]), ih, List.cons_append]

theorem lastPart_append (d : List Char) (xs : List (List Char)) {ys : List (List Char)}
    (h : ys ≠ []) : lastPart d (xs ++ ys) = lastPart d ys := by
  induction xs with
  | nil => rfl
  | cons x xs ih =>
    rw [List.cons_append, lastPart_cons_of_ne_nil d x (by simp [h]), ih]

theorem yieldFrames_append (xs ys : List (List Char)) :
    yieldFrames (xs ++ ys) = yieldFrames xs ++ yieldFrames ys := by
  simp [yieldFrames, List.filterMap_append]

theorem feed_append (buf c1 c2 : List Char) :
    feed buf (c1 ++ c2) =
      ((feed buf c1).1 ++ (feed (feed buf c1).2 c2).1, (feed (feed buf c1).2 c2).2) := by
  have h1 : buf ++ (c1 ++ c2) = (buf ++ c1) ++ c2 := (List.append_assoc buf c1 c2).symm
  have hne := splitBlank_ne_nil (lastPart [] (splitBlank (buf ++ c1)) ++ c2)
  simp only [feed, h1, splitBlank_append (buf ++ c1) c2,
    initParts_append _ hne, lastPart_append _ _ hne, yieldFrames_append]

theorem runDecoder_flatten (cs : List (List Char)) (buf : List Char) (h : cs ≠ []) :
    runDecoder buf cs = (feed buf cs.flatten).1 := by
  induction cs generalizing buf with
  | nil => exact absurd rfl h
  | cons c cs ih =>
    cases cs with
    | nil => simp [runDecoder, List.flatten]
    | cons c2 cs2 =>
      have e : runDecoder buf (c :: c2 :: cs2)
          = (feed buf c).1 ++ runDecoder (feed buf c).2 (c2 :: cs2) := rfl
      rw [e, ih _ (by simp),
          show (c :: c2 :: cs2).flatten = c ++ (c2 :: cs2).flatten from rfl, feed_append]



theorem splitBlank_no_sep : ∀ {s : List Char}, hasBlankSep s = false → splitBlank s = [s] := by
  intro s
  induction s using splitBlank.induct with
  | case1 => intro h; rfl
  | case2 c => intro h; rfl
  | case3 c1 c2 rest h3 ih =>
    obtain ⟨e1, e2⟩ := h3; subst e1; subst e2
    intro h
    simp [hasBlankSep] at h
  | case4 c1 c2 rest h4 ih =>
    intro h
    have h' : hasBlankSep (c2 :: rest) = false := by
      cases rest with
      | nil => rfl
      | cons c3 r3 =>
        simp [hasBlankSep] at h ⊢
        exact h.2
    rw [splitBlank_cons₂ h4, ih h', consHead_cons]

theorem splitBlank_frame (rest : List Char) :
    ∀ f : List Char, hasBlankSep f = false → f.getLast? ≠ some '\n' →
      splitBlank (f ++ '\n' :: '\n' :: rest) = f :: splitBlank rest := by
  intro f
  induction f using splitBlank.induct with
  | case1 =>
    intro _ _
    rw [List.nil_append, splitBlank_sep]
  | case2 c =>
    intro _ h2
    have hc : ¬(c = '\n' ∧ ('\n' : Char) = '\n') := by
      intro ⟨e, _⟩
      exact h2 (by rw [e]; rfl)
    rw [show [c] ++ '\n' :: '\n' :: rest = c :: '\n' :: '\n' :: rest from rfl,
        splitBlank_cons₂ hc, splitBlank_sep, consHead_cons]
  | case3 c1 c2 rest' h3 ih =>
    obtain ⟨e1, e2⟩ := h3; subst e1; subst e2
    intro h1 _
    simp [hasBlankSep] at h1
  | case4 c1 c2 rest' h4 ih =>
    intro h1 h2
    have h1' : hasBlankSep (c2 :: rest') = false := by
      cases rest' with
      | nil => rfl
      | cons c3 r3 =>
        simp [hasBlankSep] at h1 ⊢
        exact h1.2
    have h2' : (c2 :: rest').getLast? ≠ some '\n' := by
      rw [← @List.getLast?_cons_cons Char c1 c2 rest']
      exact h2
    rw [show (c1 :: c2 :: rest') ++ '\n' :: '\n' :: rest
          = c1 :: ((c2 :: rest') ++ '\n' :: '\n' :: rest) from rfl,
        show c1 :: ((c2 :: rest') ++ '\n' :: '\n' :: rest)
          = c1 :: c2 :: (rest' ++ '\n' :: '\n' :: rest) from rfl,
        splitBlank_cons₂ h4,
        show c2 :: (rest' ++ '\n' :: '\n' :: rest) = (c2 :: rest') ++ '\n' :: '\n' :: rest from rfl,
        ih h1' h2', consHead_cons]



theorem contents_emitCur (cur : List Message) :
    ((emitCur cur).map GroupedMessage.contents).flatten = cur := by
  cases cur with
  | nil => rfl
  | cons m ms => simp [emitCur, mkToolGroup, GroupedMessage.contents]

theorem groupGo_flatten : ∀ (msgs cur : List Message),
    ((groupGo cur msgs).map GroupedMessage.contents).flatten = cur ++ msgs := by
  intro msgs
  induction msgs with
  | nil => intro cur; simp [groupGo, contents_emitCur]
  | cons m rest ih =>
    intro cur
    cases hm : isToolMessage m with
    | true =>
      simp only [groupGo, hm, if_true]
      rw [ih (cur ++ [m]), List.append_assoc, List.singleton_append]
    | false =>
      simp only [groupGo, hm, Bool.false_eq_true, if_false]
      simp only [List.map_append, List.flatten_append, contents_emitCur, List.map_cons,
        List.flatten_cons, GroupedMessage.contents, ih []]
      simp

theorem mem_emitCur_wf (cur : List Message) (hcur : ∀ x ∈ cur, isToolMessage x = true)
    (g : GroupedMessage) (hg : g ∈ emitCur cur) :
    (∀ l gid, g = GroupedMessage.toolGroup l gid → l ≠ [] ∧ ∀ m ∈ l, isToolMessage m = true) ∧
    (∀ m, g = GroupedMessage.single m → isToolMessage m = false) := by
  cases cur with
  | nil => simp [emitCur] at hg
  | cons c cs =>
    simp [emitCur, mkToolGroup] at hg
    subst hg
    constructor
    · intro l gid hgl
      injection hgl with e1 e2
      subst e1
      exact ⟨by simp, hcur⟩
    · intro m hm
      exact absurd hm (by simp [mkToolGroup])

theorem groupGo_wf : ∀ (msgs cur : List Message),
    (∀ x ∈ cur, isToolMessage x = true) →
    ∀ g ∈ groupGo cur msgs,
      (∀ l gid, g = GroupedMessage.toolGroup l gid → l ≠ [] ∧ ∀ m ∈ l, isToolMessage m = true) ∧
      (∀ m, g = GroupedMessage.single m → isToolMessage m = false) := by
  intro msgs
  induction msgs with
  | nil =>
    intro cur hcur g hg
    exact mem_emitCur_wf cur hcur g hg
  | cons m rest ih =>
    intro cur hcur g hg
    cases hm : isToolMessage m with
    | true =>
      simp only [groupGo, hm, if_true] at hg
      refine ih (cur ++ [m]) ?_ g hg
      intro x hx
      rcases List.mem_append.mp hx with h | h
      · exact hcur x h
      · simp at h; subst h; exact hm
    | false =>
      simp only [groupGo, hm, Bool.false_eq_true, if_false] at hg
      rcases List.mem_append.mp hg with h | h
      · exact mem_emitCur_wf cur hcur g h
      · rcases List.mem_cons.mp h with h | h
        · subst h
          constructor
          · intro l gid hgl; exact absurd hgl (by simp)
          · intro m' hm'
            injection hm' with e; subst e; exact hm
        · exact ih [] (by simp) g h

theorem noTwoGroups_single_cons (m : Message) (l : List GroupedMessage) :
    noTwoGroups (GroupedMessage.single m :: l) = noTwoGroups l := by
  cases l with
  | nil => rfl
  | cons g l' => simp [noTwoGroups, isGroup]

theorem noTwoGroups_emitCur_single (cur : List Message) (m : Message)
    (l : List GroupedMessage) :
    noTwoGroups (emitCur cur ++ GroupedMessage.single m :: l) = noTwoGroups l := by
  cases cur with
  | nil => simp [emitCur, noTwoGroups_single_cons]
  | cons c cs =>
    simp [emitCur, mkToolGroup, noTwoGroups, isGroup, noTwoGroups_single_cons]

theorem groupGo_noTwoGroups : ∀ (msgs cur : List Message),
    noTwoGroups (groupGo cur msgs) = true := by
  intro msgs
  induction msgs with
  | nil =>
    intro cur
    cases cur with
    | nil => rfl
    | cons c cs => rfl
  | cons m rest ih =>
    intro cur
    cases hm : isToolMessage m with
    | true =>
      simp only [groupGo, hm, if_true]
      exact ih (cur ++ [m])
    | false =>
      simp only [groupGo, hm, Bool.false_eq_true, if_false]
      rw [noTwoGroups_emitCur_single]
      exact ih []


/-! ## Claim theorems -/

/-- Claim C1, counterexample: with the writable cursor absent (null),
`ChapterWritingPage` reports chapter 0 unlocked, contradicting the
claim's "when the cursor is null the gate degrades to reporting all
chapters locked". -/
theorem c1_cursor_null_unlocked_cex : isLocked none 0 = false := rfl

/-- Claim C1 (amended): in CHAPTER_WRITING, chapter i is reported
unlocked iff the cursor is absent or i is at most the cursor; when the
cursor is absent every chapter is reported unlocked (not locked); and
chapters strictly above a present cursor are always reported locked. -/
theorem c1_chapter_lock_amended (cur : Option Nat) (i : Nat) :
    (isLocked cur i = false ↔ cur = none ∨ ∃ c, cur = some c ∧ i ≤ c) ∧
    isLocked none i = false ∧
    (∀ c, cur = some c → c < i → isLocked cur i = true) := by
  refine ⟨?_, rfl, ?_⟩
  · cases cur with
    | none => simp [isLocked]
    | some c =>
      simp only [isLocked, decide_eq_false_iff_not, not_lt, Option.some.injEq]
      constructor
      · intro hle
        exact Or.inr ⟨c, rfl, hle⟩
      · rintro (h | ⟨c2, e, hle⟩)
        · exact absurd h (by simp)
        · omega
  · intro c hc hlt
    subst hc
    simp only [isLocked, decide_eq_true_eq]
    omega

theorem c1_chapter_lock_amended_witness : isLocked (some 2) 3 = true :=
  (c1_chapter_lock_amended (some 2) 3).2.2 2 rfl (by decide)

/-- Claim C2: in the CHAPTER_WRITING phase, content generation is
permitted only for the single frontier chapter: if the generate button
is enabled then the cursor equals the selected index; the button is
disabled for every cursor value different from the selected index
(already-unlocked chapters below it included), and always disabled when
the cursor is absent. -/
theorem c2_generate_frontier_only (g s : Bool) (i : Nat) (cur : Option Nat) :
    (generateDisabled g s (some ProjectPhase.CHAPER_WRITING) (some i) cur = false →
      cur = some i) ∧
    (∀ c, cur = some c → c ≠ i →
      generateDisabled g s (some ProjectPhase.CHAPER_WRITING) (some i) cur = true) ∧
    (cur = none →
      generateDisabled g s (some ProjectPhase.CHAPER_WRITING) (some i) cur = true) := by
  refine ⟨?_, ?_, ?_⟩
  · intro h
    simp only [generateDisabled, chapterWritingReadOnly, Bool.or_eq_false_iff,
      decide_eq_false_iff_not, not_not, ne_eq] at h
    exact h.2.symm
  · intro c hc hne
    subst hc
    simp only [generateDisabled, Bool.or_eq_true, decide_eq_true_eq, ne_eq]
    refine Or.inr ?_
    intro e
    injection e with e
    exact hne e.symm
  · intro hc
    subst hc
    simp [generateDisabled]

theorem c2_generate_frontier_only_witness :
    generateDisabled false false (some ProjectPhase.CHAPER_WRITING) (some 1) (some 2)
      = true :=
  (c2_generate_frontier_only false false 1 (some 2)).2.1 2 rfl (by decide)

/-- Claim C9: while the isLoading flag of a prior turn is still true, a
submit invocation leaves the session unchanged: same message list and
input text, the flag still set, and no network request issued — in
particular no user message and no assistant placeholder are created. -/
theorem c9_submit_ignored_while_loading (msgs : List Message) (input : String)
    (hasProjectId : Bool) (uid pid : String) :
    chatSubmit msgs input true hasProjectId uid pid = ⟨msgs, input, true, none⟩ := by
  simp [chatSubmit]


/-- Claim C3: the grouping function emits, in order, one tool group per
maximal run of consecutive thinking/tool_result messages and one
standalone item per other message: flattening the output items'
contents in order reproduces the input list; every tool group is a
non-empty list of tool messages while every standalone item is a
non-tool message; and no two adjacent output items are both tool groups
(a run is never split, and runs separated by an ordinary message are
never merged). -/
theorem c3_grouping_spec (msgs : List Message) :
    ((groupedMessages msgs).map GroupedMessage.contents).flatten = msgs ∧
    (∀ g ∈ groupedMessages msgs,
      (∀ l gid, g = GroupedMessage.toolGroup l gid →
        l ≠ [] ∧ ∀ m ∈ l, isToolMessage m = true) ∧
      (∀ m, g = GroupedMessage.single m → isToolMessage m = false)) ∧
    noTwoGroups (groupedMessages msgs) = true := by
  refine ⟨?_, ?_, ?_⟩
  · have h := groupGo_flatten msgs []
    rw [List.nil_append] at h
    exact h
  · intro g hg
    exact groupGo_wf msgs [] (by simp) g hg
  · exact groupGo_noTwoGroups msgs []

theorem c3_grouping_spec_witness :
    ([⟨"log-1", Role.assistant, "t", some "thinking"⟩,
      ⟨"log-2", Role.assistant, "r", some "tool_result"⟩] : List Message) ≠ [] ∧
    ∀ m ∈ ([⟨"log-1", Role.assistant, "t", some "thinking"⟩,
      ⟨"log-2", Role.assistant, "r", some "tool_result"⟩] : List Message),
      isToolMessage m = true :=
  ((c3_grouping_spec demoToolRun).2.1
      (GroupedMessage.toolGroup
        [⟨"log-1", Role.assistant, "t", some "thinking"⟩,
         ⟨"log-2", Role.assistant, "r", some "tool_result"⟩] "group-log-1")
      (by decide)).1 _ _ rfl

/-- Claim C4: a token event rewrites the transcript pointwise: the
length is preserved; a message whose identifier equals the target gets
its content replaced by the old content followed by the payload while
any other message is returned unchanged; content length never
decreases; and applying the same event a second time appends the
payload again (the update is deliberately not idempotent). -/
theorem c4_token_append (msgs : List Message) (tid d : String) (i : Nat) :
    (applyToken tid d msgs).length = msgs.length ∧
    (∀ m, msgs[i]? = some m → m.id = tid →
      (applyToken tid d msgs)[i]? = some { m with content := m.content ++ d } ∧
      (applyToken tid d (applyToken tid d msgs))[i]? =
        some { m with content := m.content ++ d ++ d }) ∧
    (∀ m, msgs[i]? = some m → m.id ≠ tid → (applyToken tid d msgs)[i]? = some m) ∧
    (∀ m m2, msgs[i]? = some m → (applyToken tid d msgs)[i]? = some m2 →
      m.content.length ≤ m2.content.length) := by
  refine ⟨by simp [applyToken], ?_, ?_, ?_⟩
  · intro m hm hid
    constructor
    · rw [applyToken, List.getElem?_map, hm]
      simp [hid]
    · rw [applyToken, applyToken, List.getElem?_map, List.getElem?_map, hm]
      simp [hid]
  · intro m hm hid
    rw [applyToken, List.getElem?_map, hm]
    simp [hid]
  · intro m m2 hm hm2
    rw [applyToken, List.getElem?_map, hm] at hm2
    simp only [Option.map_some'] at hm2
    injection hm2 with hm2
    by_cases hid : m.id = tid
    · rw [if_pos hid] at hm2
      rw [← hm2]
      simp [String.length_append]
    · rw [if_neg hid] at hm2
      rw [← hm2]

theorem c4_token_append_witness :
    (applyToken "assistant-1" "Hi" demoMsgs)[1]? =
      some ⟨"assistant-1", Role.assistant, "" ++ "Hi", some "final"⟩ :=
  ((c4_token_append demoMsgs "assistant-1" "Hi" 1).2.1
      ⟨"assistant-1", Role.assistant, "", some "final"⟩ (by decide) rfl).1


/-- Claim C5, counterexample: in the chaptering reduction the error
event is a no-op — applying an error event with payload "boom" to the
demo transcript leaves it unchanged, and in particular the
placeholder's content stays empty instead of receiving a formatted
error marker containing "boom". -/
theorem c5_chaptering_error_noop_cex :
    chapteringApply ⟨"error", "boom"⟩ "assistant-1" "log-9" demoMsgs = demoMsgs ∧
    (chapteringApply ⟨"error", "boom"⟩ "assistant-1" "log-9" demoMsgs).map Message.content
      = ["hi", ""] := by
  exact ⟨by decide, by decide⟩

/-- Claim C5 (amended): the end event is a no-op in both chat-stage
reductions; the error event is a no-op in the chaptering reduction; and
in the world-setup reduction the error event overwrites the content of
every message bearing the placeholder's identifier with the formatted
marker consisting of the error prefix followed by the payload. -/
theorem c5_error_end_amended (msgs : List Message) (targetId newLogId d e : String)
    (i : Nat) :
    worldSetupApply ⟨"end", e⟩ targetId newLogId msgs = msgs ∧
    chapteringApply ⟨"end", e⟩ targetId newLogId msgs = msgs ∧
    chapteringApply ⟨"error", d⟩ targetId newLogId msgs = msgs ∧
    (∀ m, msgs[i]? = some m → m.id = targetId →
      (worldSetupApply ⟨"error", d⟩ targetId newLogId msgs)[i]? =
        some { m with content := "**错误:** " ++ d }) := by
  refine ⟨by simp [worldSetupApply], by simp [chapteringApply], by simp [chapteringApply], ?_⟩
  intro m hm hid
  have e1 : worldSetupApply ⟨"error", d⟩ targetId newLogId msgs
      = applyErrorOverwrite targetId d msgs := by
    simp [worldSetupApply]
  rw [e1, applyErrorOverwrite, List.getElem?_map, hm]
  simp [hid]

theorem c5_error_end_amended_witness :
    (worldSetupApply ⟨"error", "boom"⟩ "assistant-1" "log-9" demoMsgs)[1]? =
      some ⟨"assistant-1", Role.assistant, "**错误:** " ++ "boom", some "final"⟩ :=
  (c5_error_end_amended demoMsgs "assistant-1" "log-9" "boom" "" 1).2.2.2
    ⟨"assistant-1", Role.assistant, "", some "final"⟩ (by decide) rfl

/-- Claim C6: when the transcript's last element is the placeholder,
a thinking or tool_result event (in either chat-stage reduction)
inserts exactly one new assistant message whose type is the event kind
and whose content is the event payload immediately before the
placeholder: the result is the old prefix, then the new log message,
then the placeholder; the placeholder stays last with content
unchanged, the length grows by one, and the prefix of earlier messages
is unchanged. -/
theorem c6_insert_before_placeholder (msgs : List Message) (ph : Message)
    (targetId newLogId ty d : String)
    (hty : ty = "thinking" ∨ ty = "tool_result")
    (hlast : msgs.getLast? = some ph) :
    worldSetupApply ⟨ty, d⟩ targetId newLogId msgs =
      msgs.dropLast ++ [⟨newLogId, Role.assistant, d, some ty⟩, ph] ∧
    chapteringApply ⟨ty, d⟩ targetId newLogId msgs =
      msgs.dropLast ++ [⟨newLogId, Role.assistant, d, some ty⟩, ph] ∧
    (worldSetupApply ⟨ty, d⟩ targetId newLogId msgs).getLast? = some ph ∧
    (worldSetupApply ⟨ty, d⟩ targetId newLogId msgs).length = msgs.length + 1 ∧
    (worldSetupApply ⟨ty, d⟩ targetId newLogId msgs).take msgs.dropLast.length
      = msgs.dropLast := by
  have hne : msgs ≠ [] := by
    intro h
    rw [h] at hlast
    exact Option.noConfusion hlast
  have hcond : (ty = "thinking" || ty = "tool_result") = true := by
    rcases hty with h | h <;> simp [h]
  have hw : worldSetupApply ⟨ty, d⟩ targetId newLogId msgs
      = insertLog newLogId ty d msgs := by
    rw [worldSetupApply]
    simp only [hcond, if_true]
  have hc : chapteringApply ⟨ty, d⟩ targetId newLogId msgs
      = insertLog newLogId ty d msgs := by
    rw [chapteringApply]
    simp only [hcond, if_true]
  have hi : insertLog newLogId ty d msgs
      = msgs.dropLast ++ [⟨newLogId, Role.assistant, d, some ty⟩, ph] := by
    rw [insertLog, hlast]
  refine ⟨by rw [hw, hi], by rw [hc, hi], ?_, ?_, ?_⟩
  · rw [hw, hi, show msgs.dropLast ++ [⟨newLogId, Role.assistant, d, some ty⟩, ph]
        = (msgs.dropLast ++ [⟨newLogId, Role.assistant, d, some ty⟩]) ++ [ph] by
          rw [List.append_assoc]
          rfl]
    exact List.getLast?_concat _
  · rw [hw, hi, List.length_append, List.length_dropLast]
    have : 1 ≤ msgs.length := List.length_pos.mpr hne
    simp only [List.length_cons, List.length_nil]
    omega
  · rw [hw, hi]
    exact List.take_left _ _

theorem c6_insert_before_placeholder_witness :
    worldSetupApply ⟨"thinking", "T"⟩ "assistant-1" "log-9" demoMsgs =
      demoMsgs.dropLast ++ [⟨"log-9", Role.assistant, "T", some "thinking"⟩,
        ⟨"assistant-1", Role.assistant, "", some "final"⟩] :=
  (c6_insert_before_placeholder demoMsgs
      ⟨"assistant-1", Role.assistant, "", some "final"⟩ "assistant-1" "log-9"
      "thinking" "T" (Or.inl rfl) (by decide)).1


/-- Claim C7: however the spec's test-vector byte sequence is split
into read chunks, the decoder yields exactly the two frame payloads and
nothing else, and they parse to a token event with data "Hi" followed
by an end event. -/
theorem c7_decoder_two_frames (cs : List (List Char)) (h : cs.flatten = sseInput) :
    decodeAll cs = [ssePayload1, ssePayload2] ∧
    parseEvent ssePayload1 = some ⟨"token", "Hi"⟩ ∧
    parseEvent ssePayload2 = some ⟨"end", ""⟩ := by
  have hne : cs ≠ [] := by
    intro hnil
    rw [hnil] at h
    exact absurd h (by decide)
  refine ⟨?_, by decide, by decide⟩
  show runDecoder [] cs = _
  rw [runDecoder_flatten cs [] hne, h]
  decide

theorem c7_decoder_two_frames_witness :
    decodeAll [sseInput.take 10, sseInput.drop 10] = [ssePayload1, ssePayload2] ∧
    parseEvent ssePayload1 = some ⟨"token", "Hi"⟩ ∧
    parseEvent ssePayload2 = some ⟨"end", ""⟩ :=
  c7_decoder_two_frames [sseInput.take 10, sseInput.drop 10] (by decide)

/-- Claim C8, counterexample: a complete frame whose first line is
another field but which contains a data line later, "event: x" then
"data: hi", yields nothing at all — the decoder does not extract the
frame's data segment. -/
theorem c8_nondata_first_line_cex :
    decodeAll ["event: x\ndata: hi\n\n".toList] = [] := by decide

/-- Claim C8 (amended): a complete frame is yielded iff the frame
begins with the 6-character field marker, in which case everything
after the marker — any further lines of the frame included — is
yielded verbatim; a frame that does not begin with the marker is
dropped whole, even when a data line occurs later inside it. -/
theorem c8_frame_yield_amended (frame : List Char)
    (h1 : hasBlankSep frame = false) (h2 : frame.getLast? ≠ some '\n') :
    decodeAll [frame ++ '\n' :: '\n' :: []] =
      if dataField.isPrefixOf frame then [frame.drop 6] else [] := by
  have e : decodeAll [frame ++ '\n' :: '\n' :: []]
      = (feed [] (frame ++ '\n' :: '\n' :: [])).1 ++ [] := rfl
  rw [e, List.append_nil]
  show yieldFrames (initParts (splitBlank ([] ++ (frame ++ '\n' :: '\n' :: [])))) = _
  rw [List.nil_append, splitBlank_frame [] frame h1 h2]
  show yieldFrames [frame] = _
  cases hp : dataField.isPrefixOf frame with
  | true =>
    have hp' : dataField <+: frame := List.isPrefixOf_iff_prefix.mp hp
    simp [yieldFrames, hp']
  | false =>
    have hp' : ¬ dataField <+: frame := by
      simp [← List.isPrefixOf_iff_prefix, hp]
    simp [yieldFrames, hp']

theorem c8_frame_yield_amended_witness :
    decodeAll ["data: hi\nevent: x".toList ++ '\n' :: '\n' :: []] =
      ["hi\nevent: x".toList] := by
  rw [c8_frame_yield_amended "data: hi\nevent: x".toList (by decide) (by decide)]
  decide

/-- Claim C10: for every non-empty chunk sequence, the decoder's output
is exactly the data segments of the parts that precede the last
blank-line delimiter of the concatenated input — the trailing part
after the last delimiter (the partial final frame held in the buffer
when the stream signals end-of-data) is never yielded; in particular an
input containing no delimiter at all yields nothing. -/
theorem c10_trailing_fragment_discarded (cs : List (List Char)) (h : cs ≠ []) :
    decodeAll cs = yieldFrames (initParts (splitBlank cs.flatten)) ∧
    (hasBlankSep cs.flatten = false → decodeAll cs = []) := by
  have e : decodeAll cs = (feed [] cs.flatten).1 := runDecoder_flatten cs [] h
  constructor
  · rw [e]
    show yieldFrames (initParts (splitBlank ([] ++ cs.flatten))) = _
    rw [List.nil_append]
  · intro hb
    rw [e]
    show yieldFrames (initParts (splitBlank ([] ++ cs.flatten))) = []
    rw [List.nil_append, splitBlank_no_sep hb]
    rfl

theorem c10_trailing_fragment_discarded_witness :
    decodeAll ["data: partial frame".toList] = [] :=
  (c10_trailing_fragment_discarded ["data: partial frame".toList]
      (by decide)).2 (by decide)

end PlotWeave
